import Mathlib

/-!
Verification of `misoc/interconnect/csr_bus.py`: a shallow embedding of the
CSR bus responders (the `SRAM` width-adapting memory bridge and the
`CSRBank` register bank) and of the `CSRBankArray.scan` address allocator,
together with theorems settling the specification claims.

Synchronous logic is modelled as an explicit step function on a state record:
a step consumes the bus inputs of one clock cycle and returns the registers
after the clock edge.  Combinational outputs are functions of the current
state (registers) and, where the source reads bus inputs combinationally,
of the inputs.  Bit slices `x[a:b]` of the source become `x / 2 ^ a % 2 ^ (b - a)`.
-/

namespace CsrBus

/-- Fuel-driven ceiling log2: `clog2Go fuel n` returns the least `r` with
`n ≤ 2 ^ r` provided `fuel ≥ n`.  Models the loop of migen's
`log2_int(n, need_pow2=False)` (`l = 1; r = 0; while l < n: l *= 2; r += 1`). -/
def clog2Go : Nat → Nat → Nat
  | 0, _ => 0
  | fuel + 1, n => if n ≤ 1 then 0 else clog2Go fuel ((n + 1) / 2) + 1

/-- `log2_int(n, need_pow2=False)`: least `r` with `2 ^ r ≥ n`. -/
def clog2 (n : Nat) : Nat := clog2Go n n

/-- migen `log2_int(n)` (with `need_pow2=True`): returns `r` with `2 ^ r = n`,
or `none` where the Python raises `ValueError("Not a power of 2")`. -/
def log2IntExact (n : Nat) : Option Nat :=
  if 2 ^ clog2 n = n then some (clog2 n) else none

/-- A migen `Memory`: word width, depth, and the `bus_read_only` attribute
(absent in Python behaves as `False`, so a plain `Bool` field suffices). -/
structure MemSpec where
  width : Nat
  depth : Nat
  busReadOnly : Bool
deriving DecidableEq

/-- Elaborated constants of one `SRAM` bridge, fixed by `SRAM.__init__`. -/
structure SRAMParams where
  dataWidth : Nat
  address : Nat
  readOnly : Bool
  memWidth : Nat
  memDepth : Nat
  csrwPerMemw : Nat
  wordBits : Nat
  pageBits : Nat
  portAdrWidth : Nat
deriving DecidableEq

/-- `SRAM.__init__` constant elaboration:
`csrw_per_memw = (mem.width + data_width - 1) // data_width`,
`word_bits = log2_int(csrw_per_memw)` (raising, hence `none`, when
`csrw_per_memw` is not a power of two),
`page_bits = log2_int((mem.depth * csrw_per_memw + 511) // 512, False)`,
and the memory port address width `flen(port.adr) = bits_for(depth - 1)`. -/
def mkSRAM (dataWidth : Nat) (mem : MemSpec) (address : Nat) (readOnly : Bool) :
    Option SRAMParams :=
  let csrw := (mem.width + dataWidth - 1) / dataWidth
  match log2IntExact csrw with
  | none => none
  | some wordBits =>
      some { dataWidth := dataWidth, address := address, readOnly := readOnly,
             memWidth := mem.width, memDepth := mem.depth,
             csrwPerMemw := csrw, wordBits := wordBits,
             pageBits := clog2 ((mem.depth * csrw + 511) / 512),
             portAdrWidth := max 1 (clog2 mem.depth) }

/-- Bus inputs of one cycle (the controller-driven fields of `Interface`). -/
structure BusInput where
  adr : Nat
  we : Bool
  dat_w : Nat
deriving DecidableEq

/-- Registers of one `SRAM` bridge: the backing memory array, the
`csrw_per_memw - 1` write holding registers (a function; indices
`≥ csrw_per_memw - 1` are never read), `sel_r`, `word_index`, the memory
port's registered read data, and the page CSR storage. -/
structure SRAMState where
  mem : Nat → Nat
  wregs : Nat → Nat
  sel_r : Bool
  word_index : Nat
  port_dat_r : Nat
  page : Nat

/-- `sel.eq(self.bus.adr[9:] == address)` (combinational). -/
def sramSel (p : SRAMParams) (adr : Nat) : Bool :=
  decide (adr / 2 ^ 9 = p.address)

/-- `self.bus.adr[:word_bits]`. -/
def wordIndexIn (p : SRAMParams) (adr : Nat) : Nat := adr % 2 ^ p.wordBits

/-- `port.adr`: `self.bus.adr[word_bits:word_bits+flen(port.adr)]` without
paging, else `Cat(self.bus.adr[word_bits:word_bits+flen(port.adr)-flen(pv)], pv)`
with `pv` the page CSR storage (a `page_bits`-wide register). -/
def portAdr (p : SRAMParams) (page adr : Nat) : Nat :=
  if p.pageBits = 0 then
    adr / 2 ^ p.wordBits % 2 ^ p.portAdrWidth
  else
    adr / 2 ^ p.wordBits % 2 ^ (p.portAdrWidth - p.pageBits)
      + page % 2 ^ p.pageBits * 2 ^ (p.portAdrWidth - p.pageBits)

/-- `port.we`: absent for a read-only bridge; `sel & we` when
`word_bits == 0`; `sel & we & (adr[:word_bits] == csrw_per_memw - 1)`
otherwise. -/
def portWe (p : SRAMParams) (inp : BusInput) : Bool :=
  if p.readOnly then false
  else if p.wordBits = 0 then sramSel p inp.adr && inp.we
  else sramSel p inp.adr && inp.we
    && decide (wordIndexIn p inp.adr = p.csrwPerMemw - 1)

/-- `Cat(...)` of `w`-bit chunks, first chunk least significant. -/
def catChunks (w : Nat) : List Nat → Nat
  | [] => 0
  | c :: rest => c % 2 ^ w + 2 ^ w * catChunks w rest

/-- The holding registers `wregs = [wreg_0, ..., wreg_(csrw-2)]`. -/
def wregList (p : SRAMParams) (s : SRAMState) : List Nat :=
  (List.range (p.csrwPerMemw - 1)).map s.wregs

/-- `port.dat_w`: `Cat(*([self.bus.dat_w] + list(reversed(wregs))))` when
`word_bits > 0`, else `self.bus.dat_w`; truncated to the memory word width. -/
def portDatW (p : SRAMParams) (s : SRAMState) (inp : BusInput) : Nat :=
  if p.wordBits = 0 then inp.dat_w % 2 ^ p.memWidth
  else catChunks p.dataWidth (inp.dat_w :: (wregList p s).reverse) % 2 ^ p.memWidth

/-- One clock edge of the `SRAM` bridge.  The memory port is migen's default
`WRITE_FIRST` synchronous read port: the registered read data reflects a
write happening at the same edge. -/
def sramStep (p : SRAMParams) (s : SRAMState) (inp : BusInput) : SRAMState :=
  let pa := portAdr p s.page inp.adr
  let memNext :=
    if portWe p inp = true then Function.update s.mem pa (portDatW p s inp)
    else s.mem
  { mem := memNext
    wregs := fun i =>
      if p.readOnly = false ∧ 0 < p.wordBits ∧ i < p.csrwPerMemw - 1
          ∧ sramSel p inp.adr = true ∧ inp.we = true ∧ wordIndexIn p inp.adr = i
      then inp.dat_w % 2 ^ p.dataWidth
      else s.wregs i
    sel_r := sramSel p inp.adr
    word_index := wordIndexIn p inp.adr
    port_dat_r := memNext pa % 2 ^ p.memWidth
    page := s.page }

/-- `self.bus.dat_r` (combinational in the registers): under `sel_r`, the
`chooser(word_expanded, word_index, ..., reverse=True)` slice when
`word_bits > 0`, else `port.dat_r`; zero when not selected. -/
def sramDatR (p : SRAMParams) (s : SRAMState) : Nat :=
  if p.wordBits = 0 then
    if s.sel_r then s.port_dat_r else 0
  else
    if s.sel_r then
      s.port_dat_r / 2 ^ ((p.csrwPerMemw - 1 - s.word_index) * p.dataWidth)
        % 2 ^ p.dataWidth
    else 0

/-- Run the bridge over a list of per-cycle bus inputs. -/
def sramRun (p : SRAMParams) (s : SRAMState) (inps : List BusInput) : SRAMState :=
  inps.foldl (sramStep p) s

/-- The value the read path delivers one cycle after address `adr` is
presented to state `s`: the addressed memory word, sliced in reverse order
by the captured word index when `word_bits > 0`. -/
def sramReadTarget (p : SRAMParams) (s : SRAMState) (adr : Nat) : Nat :=
  let v := s.mem (portAdr p s.page adr) % 2 ^ p.memWidth
  if p.wordBits = 0 then v
  else v / 2 ^ ((p.csrwPerMemw - 1 - wordIndexIn p adr) * p.dataWidth)
    % 2 ^ p.dataWidth

/-- `SRAM.get_csrs`: the page CSR (represented by its width) when paging is
present, else nothing. -/
def sramGetCsrs (p : SRAMParams) : List Nat :=
  if p.pageBits = 0 then [] else [p.pageBits]

/-- Elaborated constants of one `CSRBank`. -/
structure BankParams where
  dataWidth : Nat
  address : Nat
  simple_csrs : List Nat
  decode_bits : Nat
deriving DecidableEq

/-- `CSRBank.__init__` over a description given as a list of register widths.
Modelled from the spec: `GenericBank` (in `misoc.interconnect.csr`, not under
`src/`) keeps the simple registers (declared width > 0; zero-width registers
are excluded from the decode) and derives
`decode_bits = ceil(log2(register_count))` once at construction. -/
def mkBank (description : List Nat) (address : Nat) (dataWidth : Nat) : BankParams :=
  let simple := description.filter (fun s => 0 < s)
  { dataWidth := dataWidth, address := address,
    simple_csrs := simple, decode_bits := clog2 simple.length }

/-- `sel.eq(self.bus.adr[9:] == address)`. -/
def bankSel (p : BankParams) (adr : Nat) : Bool :=
  decide (adr / 2 ^ 9 = p.address)

/-- `c.re.eq(sel & self.bus.we & (self.bus.adr[:self.decode_bits] == i))`. -/
def bankRe (p : BankParams) (adr : Nat) (we : Bool) (i : Nat) : Bool :=
  bankSel p adr && we && decide (adr % 2 ^ p.decode_bits = i)

/-- `c.r.eq(self.bus.dat_w[:c.size])`: write value presented to register `i`. -/
def bankR (p : BankParams) (dat_w : Nat) (i : Nat) : Nat :=
  dat_w % 2 ^ p.simple_csrs.getD i 0

/-- The registered read path: each edge `dat_r` is cleared to zero, then,
under `sel`, overwritten through the `Case` over simple CSR indices with the
externally held readable values `w` (an unmatched index keeps the zero). -/
def bankDatRNext (p : BankParams) (w : List Nat) (adr : Nat) : Nat :=
  if bankSel p adr = true ∧ adr % 2 ^ p.decode_bits < p.simple_csrs.length
  then w.getD (adr % 2 ^ p.decode_bits) 0 else 0

/-- The bridge produced by `SRAM.__init__` for an 8-bit-wide, depth-4 memory
on an 8-bit bus at assigned address 0 (`csrw_per_memw = 1`, `word_bits = 0`,
`page_bits = 0`, `flen(port.adr) = 2`). -/
def c2Params : SRAMParams :=
  { dataWidth := 8, address := 0, readOnly := false, memWidth := 8, memDepth := 4,
    csrwPerMemw := 1, wordBits := 0, pageBits := 0, portAdrWidth := 2 }

/-- The bank produced by `CSRBank` over two 8-bit registers at assigned
address 0 (`decode_bits = 1`). -/
def c3Bank : BankParams :=
  { dataWidth := 8, address := 0, simple_csrs := [8, 8], decode_bits := 1 }

/-- An unselected-read example bridge (assigned address 1). -/
def c8P : SRAMParams :=
  { dataWidth := 8, address := 1, readOnly := false, memWidth := 8, memDepth := 4,
    csrwPerMemw := 1, wordBits := 0, pageBits := 0, portAdrWidth := 2 }

/-- A state of `c8P` with nonzero memory contents. -/
def c8S : SRAMState :=
  { mem := fun _ => 5, wregs := fun _ => 0, sel_r := true, word_index := 0,
    port_dat_r := 5, page := 0 }

/-- An unselected-read example bank (assigned address 1, one 8-bit register). -/
def c8B : BankParams :=
  { dataWidth := 8, address := 1, simple_csrs := [8], decode_bits := 0 }

/-- A writable 32-bit-wide, depth-4 bridge on an 8-bit bus at address 0
(`csrw_per_memw = 4`, `word_bits = 2`). -/
def c4P : SRAMParams :=
  { dataWidth := 8, address := 0, readOnly := false, memWidth := 32, memDepth := 4,
    csrwPerMemw := 4, wordBits := 2, pageBits := 0, portAdrWidth := 2 }

/-- A state of `c4P` with constant memory contents. -/
def c4S : SRAMState :=
  { mem := fun _ => 7, wregs := fun _ => 0, sel_r := false, word_index := 0,
    port_dat_r := 0, page := 0 }

/-- A writable 32-bit-wide, depth-8 bridge on an 8-bit bus at address 2. -/
def c5P : SRAMParams :=
  { dataWidth := 8, address := 2, readOnly := false, memWidth := 32, memDepth := 8,
    csrwPerMemw := 4, wordBits := 2, pageBits := 0, portAdrWidth := 3 }

/-- A state of `c5P` with a recognizable memory word. -/
def c5S : SRAMState :=
  { mem := fun _ => 0x0A0B0C0D, wregs := fun _ => 0, sel_r := false, word_index := 0,
    port_dat_r := 0, page := 0 }

/-- A two-register bank at assigned address 2. -/
def c5B : BankParams :=
  { dataWidth := 8, address := 2, simple_csrs := [8, 8], decode_bits := 1 }

/-- The bridge for an 8-bit-wide, depth-1024 memory on an 8-bit bus: 1024
transfers exceed the 512-address window, so `page_bits = 1`. -/
def c6P : SRAMParams :=
  { dataWidth := 8, address := 0, readOnly := false, memWidth := 8,
    memDepth := 1024, csrwPerMemw := 1, wordBits := 0, pageBits := 1,
    portAdrWidth := 10 }

/-- One child of the scanned source: its name, the registers of
`get_csrs()` (as widths; an object without the capability yields `[]`,
which the code treats identically), and the memories of `get_memories()`. -/
structure ScanObj where
  name : String
  csrs : List Nat
  mems : List MemSpec
deriving DecidableEq

/-- Intermediate result of the memory loop of `CSRBankArray.scan` for one
object: the policy state after the memory calls, the `self.srams` entries
contributed, the page CSRs appended to the object's register list, and —
as instrumentation — the `address_map` call trace `(name, memory, answer)`.
`none` models a `ValueError` escaping `csr.SRAM` construction. -/
structure MemScan (σ : Type) where
  state : σ
  srams : List (String × MemSpec × Nat × SRAMParams)
  pageCsrs : List Nat
  calls : List (String × Option MemSpec × Option Nat)
deriving DecidableEq

/-- Result of `CSRBankArray.scan`: the policy state, `self.banks`
(name, register list, mapped address), `self.srams` (name, memory, mapped
address, bridge constants), and the `address_map` call trace
(instrumentation). -/
structure ScanOut (σ : Type) where
  state : σ
  banks : List (String × List Nat × Nat)
  srams : List (String × MemSpec × Nat × SRAMParams)
  calls : List (String × Option MemSpec × Option Nat)
deriving DecidableEq

/-- The memory loop of `scan`: for each memory, call
`address_map(name, memory)`; on `None` skip it (`continue`); otherwise
instantiate the bridge (`csr.SRAM`; `read_only=None` resolves to the
memory's `bus_read_only` attribute) and append its `get_csrs()` to the
object's register list. -/
def scanMems {σ : Type} (am : σ → String → Option MemSpec → σ × Option Nat)
    (dataWidth : Nat) (name : String) :
    σ → List MemSpec → Option (MemScan σ)
  | s, [] => some ⟨s, [], [], []⟩
  | s, m :: rest =>
      match (am s name (some m)).2 with
      | none =>
          (scanMems am dataWidth name (am s name (some m)).1 rest).map fun t =>
            ⟨t.state, t.srams, t.pageCsrs, (name, some m, none) :: t.calls⟩
      | some a =>
          match mkSRAM dataWidth m a m.busReadOnly with
          | none => none
          | some p =>
              (scanMems am dataWidth name (am s name (some m)).1 rest).map fun t =>
                ⟨t.state, (name, m, a, p) :: t.srams,
                 sramGetCsrs p ++ t.pageCsrs, (name, some m, some a) :: t.calls⟩

/-- `CSRBankArray.scan` over the source's children in enumeration order:
collect `get_csrs()`, process the memories, then, if the combined register
list is non-empty, call `address_map(name, None)` and on a non-skip answer
instantiate the register bank (the `Bank` of line 204, carried as its
(register list, address) pair). -/
def scan {σ : Type} (am : σ → String → Option MemSpec → σ × Option Nat)
    (dataWidth : Nat) : σ → List ScanObj → Option (ScanOut σ)
  | s, [] => some ⟨s, [], [], []⟩
  | s, o :: rest =>
      match scanMems am dataWidth o.name s o.mems with
      | none => none
      | some ms =>
          if (o.csrs ++ ms.pageCsrs).isEmpty then
            (scan am dataWidth ms.state rest).map fun t =>
              ⟨t.state, t.banks, ms.srams ++ t.srams, ms.calls ++ t.calls⟩
          else
            match (am ms.state o.name none).2 with
            | none =>
                (scan am dataWidth (am ms.state o.name none).1 rest).map fun t =>
                  ⟨t.state, t.banks, ms.srams ++ t.srams,
                   ms.calls ++ (o.name, none, none) :: t.calls⟩
            | some a =>
                (scan am dataWidth (am ms.state o.name none).1 rest).map fun t =>
                  ⟨t.state, (o.name, o.csrs ++ ms.pageCsrs, a) :: t.banks,
                   ms.srams ++ t.srams,
                   ms.calls ++ (o.name, none, some a) :: t.calls⟩

/-- The `self.srams` entry a single `address_map` call accounts for: a
skipped call or a bank call contributes nothing. -/
def sramOfCall (dataWidth : Nat) :
    String × Option MemSpec × Option Nat →
      Option (String × MemSpec × Nat × SRAMParams)
  | (n, some m, some a) => (mkSRAM dataWidth m a m.busReadOnly).map fun p => (n, m, a, p)
  | _ => none

/-- The bank (name, address) a single `address_map` call accounts for: a
skipped call or a memory call contributes nothing. -/
def bankAddrOfCall : String × Option MemSpec × Option Nat → Option (String × Nat)
  | (n, none, some a) => some (n, a)
  | _ => none

/-- The queryable products of a `CSRBankArray` (`self.banks`, `self.srams`). -/
structure BankArrays where
  banks : List (String × List Nat × Nat)
  srams : List (String × MemSpec × Nat × SRAMParams)
deriving DecidableEq

/-- Re-running `scan` on a `CSRBankArray`: the previously held products are
discarded (`self.banks = []; self.srams = []` — the `_arr` argument is
ignored) and rebuilt from scratch. -/
def scanUpdate {σ : Type} (am : σ → String → Option MemSpec → σ × Option Nat)
    (dataWidth : Nat) (objs : List ScanObj) (s : σ) (_arr : BankArrays) :
    Option (σ × BankArrays) :=
  (scan am dataWidth s objs).map fun out => (out.state, ⟨out.banks, out.srams⟩)

/-- An example memory for the allocator claims. -/
def c7Mem : MemSpec := ⟨8, 4, false⟩

/-- Two children: `"x"` with one register and one memory, `"y"` with only a
memory. -/
def c7Objs : List ScanObj := [⟨"x", [3], [c7Mem]⟩, ⟨"y", [], [c7Mem]⟩]

/-- A policy skipping `"x"`'s memory, mapping `"y"`'s memory at 1 and any
register bank at 7. -/
def c7Am : Unit → String → Option MemSpec → Unit × Option Nat :=
  fun s n m =>
    (s, match m with
        | some _ => if n = "x" then none else some 1
        | none => some 7)

/-- The bridge built for `"y"`'s memory at address 1. -/
def c7SramP : SRAMParams :=
  { dataWidth := 8, address := 1, readOnly := false, memWidth := 8, memDepth := 4,
    csrwPerMemw := 1, wordBits := 0, pageBits := 0, portAdrWidth := 2 }

/-- The scan result over `c7Objs` with policy `c7Am`. -/
def c7Out : ScanOut Unit :=
  ⟨(), [("x", [3], 7)], [("y", c7Mem, 1, c7SramP)],
   [("x", some c7Mem, none), ("x", none, some 7), ("y", some c7Mem, some 1)]⟩

/-- A single register-exposing child for the idempotence witness. -/
def c9Objs : List ScanObj := [⟨"x", [4], []⟩]

/-- A pure (stateless) policy mapping everything at 3. -/
def c9Am : Unit → String → Option MemSpec → Unit × Option Nat :=
  fun s _ _ => (s, some 3)

/-- The products of scanning `c9Objs` with `c9Am`. -/
def c9Arr : BankArrays := ⟨[("x", [4], 3)], []⟩

/-- The bridge `SRAM.__init__` elaborates for a 32-bit-wide memory of depth
`d` on an 8-bit bus at assigned address `A`: `csrw_per_memw = 4`,
`word_bits = 2`. -/
def sram32 (d A : Nat) : SRAMParams :=
  { dataWidth := 8, address := A, readOnly := false, memWidth := 32, memDepth := d,
    csrwPerMemw := 4, wordBits := 2, pageBits := clog2 ((d * 4 + 511) / 512),
    portAdrWidth := max 1 (clog2 d) }

/-- The bridge for a 32-bit-wide, depth-16 memory on an 8-bit bus at
assigned address 1. -/
def c1P : SRAMParams :=
  { dataWidth := 8, address := 1, readOnly := false, memWidth := 32, memDepth := 16,
    csrwPerMemw := 4, wordBits := 2, pageBits := 0, portAdrWidth := 4 }

/-- A power-on state of `c1P`: zeroed memory and registers. -/
def c1S0 : SRAMState :=
  { mem := fun _ => 0, wregs := fun _ => 0, sel_r := false, word_index := 0,
    port_dat_r := 0, page := 0 }

end CsrBus

namespace CsrBus

theorem clog2Go_le_iff :
    ∀ fuel n, n ≤ fuel → ∀ k, (clog2Go fuel n ≤ k ↔ n ≤ 2 ^ k) := by
  intro fuel
  induction fuel with
  | zero =>
      intro n hn k
      simp only [clog2Go]
      have hn0 : n = 0 := Nat.le_zero.mp hn
      subst hn0
      simp [Nat.zero_le]
  | succ fuel ih =>
      intro n hn k
      by_cases h1 : n ≤ 1
      · simp only [clog2Go, if_pos h1]
        have : n ≤ 2 ^ k := h1.trans (Nat.one_le_two_pow)
        simp [this, Nat.zero_le]
      · have hm : (n + 1) / 2 ≤ fuel := by omega
        have ihm := ih ((n + 1) / 2) hm
        simp only [clog2Go, if_neg h1]
        cases k with
        | zero =>
            simp only [Nat.pow_zero]
            omega
        | succ j =>
            rw [Nat.succ_le_succ_iff, ihm j]
            have hp : (2 : Nat) ^ (j + 1) = 2 ^ j * 2 := by
              rw [Nat.pow_succ]
            rw [hp]
            omega

theorem clog2_le_iff (n k : Nat) : clog2 n ≤ k ↔ n ≤ 2 ^ k :=
  clog2Go_le_iff n n le_rfl k

theorem le_two_pow_clog2 (n : Nat) : n ≤ 2 ^ clog2 n :=
  (clog2_le_iff n _).mp le_rfl

/-- C2 counterexample: for the bridge of `c2Params`
(`word_index_bits = 0`, depth 4, assigned address 0), the presented address 4
is selected by the code (`adr[9:] == address`), yet its bits above position
`word_index_bits + ceil(log2(depth)) = 2` are 1, not the assigned address 0 —
refuting the claimed select condition. -/
theorem c2_sel_counterexample :
    mkSRAM 8 ⟨8, 4, false⟩ 0 false = some c2Params
    ∧ sramSel c2Params 4 = true
    ∧ ¬ (4 / 2 ^ (c2Params.wordBits + clog2 c2Params.memDepth) = c2Params.address) := by
  decide

/-- C2 (amended): for every SRAM bridge, the bridge's select (as registered
into `sel_r` at each clock edge) is true exactly when the bits of the
presented address above the fixed position 9 (a 512-address window per
responder) equal the bridge's assigned address. -/
theorem c2_sel_decode (p : SRAMParams) (s : SRAMState) (inp : BusInput) :
    (sramStep p s inp).sel_r = true ↔ inp.adr / 2 ^ 9 = p.address := by
  simp [sramStep, sramSel]

/-- C3 counterexample: for the bank of `c3Bank` (two 8-bit registers,
`decode_bits = 1`, assigned address 0), the presented address 2 is selected
by the code (`adr[9:] == address`), yet `address[decode_bits:] = 1` differs
from the assigned address 0 — refuting the claimed select condition. -/
theorem c3_sel_counterexample :
    mkBank [8, 8] 0 8 = c3Bank
    ∧ bankSel c3Bank 2 = true
    ∧ ¬ (2 / 2 ^ c3Bank.decode_bits = c3Bank.address) := by
  decide

/-- C3 (amended): for every register bank with assigned address `a`, the
select is `sel = (address[9:] == a)` (fixed position 9, not `decode_bits`);
for every simple register `i`, the write strobe is asserted exactly when
`sel`, `write_enable`, and `address[:decode_bits] == i` all hold, and the
presented write value is `write_data` truncated to the register's width. -/
theorem c3_bank_decode (p : BankParams) (adr : Nat) (we : Bool) (dw i : Nat) :
    (bankSel p adr = true ↔ adr / 2 ^ 9 = p.address)
    ∧ (bankRe p adr we i = true
        ↔ adr / 2 ^ 9 = p.address ∧ we = true ∧ adr % 2 ^ p.decode_bits = i)
    ∧ bankR p dw i = dw % 2 ^ p.simple_csrs.getD i 0 := by
  refine ⟨by simp [bankSel], ?_, rfl⟩
  simp [bankRe, bankSel, Bool.and_eq_true, decide_eq_true_eq, and_assoc]

/-- C8: whenever a responder's decode window does not match the presented
address in a cycle, its read-data contribution in the following cycle is
zero: the SRAM bridge drives `dat_r` only under the one-cycle-delayed
select, and the bank's registered `dat_r` is cleared to zero and only
overwritten when selected. -/
theorem c8_unselected_reads_zero :
    (∀ (p : SRAMParams) (s : SRAMState) (inp : BusInput),
        sramSel p inp.adr = false → sramDatR p (sramStep p s inp) = 0)
    ∧ (∀ (p : BankParams) (w : List Nat) (adr : Nat),
        bankSel p adr = false → bankDatRNext p w adr = 0) := by
  constructor
  · intro p s inp h
    simp [sramDatR, sramStep, h]
  · intro p w adr h
    simp [bankDatRNext, h]

/-- Witness for C8: concrete unselected accesses read back zero. -/
theorem c8_unselected_reads_zero_witness :
    sramDatR c8P (sramStep c8P c8S ⟨0, false, 0⟩) = 0
    ∧ bankDatRNext c8B [9] 0 = 0 :=
  ⟨c8_unselected_reads_zero.1 c8P c8S ⟨0, false, 0⟩ (by decide),
   c8_unselected_reads_zero.2 c8B [9] 0 (by decide)⟩

/-- C10: `SRAM.__init__` computes `word_bits = log2_int(csrw_per_memw)`
with an exact power-of-two logarithm, so construction fails (`ValueError`)
whenever `csrw_per_memw = ceil(mem_width / data_width)` exceeds one and is
not a power of two; and every constructed bridge has
`csrw_per_memw = 2 ^ word_bits`, a power of two. -/
theorem c10_pow2_required :
    (∀ (dataWidth : Nat) (mem : MemSpec) (address : Nat) (readOnly : Bool),
        1 < (mem.width + dataWidth - 1) / dataWidth →
        2 ^ clog2 ((mem.width + dataWidth - 1) / dataWidth)
          ≠ (mem.width + dataWidth - 1) / dataWidth →
        mkSRAM dataWidth mem address readOnly = none)
    ∧ (∀ dataWidth mem address readOnly p,
        mkSRAM dataWidth mem address readOnly = some p →
        p.csrwPerMemw = (mem.width + dataWidth - 1) / dataWidth
        ∧ 2 ^ p.wordBits = p.csrwPerMemw) := by
  constructor
  · intro D mem a ro _ hnp
    simp [mkSRAM, log2IntExact, hnp]
  · intro D mem a ro p hp
    simp only [mkSRAM, log2IntExact] at hp
    by_cases h : 2 ^ clog2 ((mem.width + D - 1) / D) = (mem.width + D - 1) / D
    · rw [if_pos h] at hp
      simp only [Option.some.injEq] at hp
      subst hp
      exact ⟨rfl, h⟩
    · rw [if_neg h] at hp
      simp at hp

/-- Witness for C10: an 8-bit bus over a 24-bit-wide memory gives
`csrw_per_memw = 3`, not a power of two, and construction fails. -/
theorem c10_pow2_required_witness :
    mkSRAM 8 ⟨24, 4, false⟩ 0 false = none :=
  c10_pow2_required.1 8 ⟨24, 4, false⟩ 0 false (by decide) (by decide)

theorem portWe_false_of_not_final (p : SRAMParams) (inp : BusInput)
    (hwb : 0 < p.wordBits)
    (h : sramSel p inp.adr = true → inp.we = true →
        wordIndexIn p inp.adr ≠ p.csrwPerMemw - 1) :
    portWe p inp = false := by
  unfold portWe
  by_cases hro : p.readOnly
  · simp [hro]
  · rw [if_neg hro, if_neg (show ¬p.wordBits = 0 by omega)]
    cases hsel : sramSel p inp.adr with
    | false => simp
    | true =>
        cases hwe : inp.we with
        | false => simp
        | true => simp [decide_eq_false (h hsel hwe)]

theorem sramStep_mem_of_portWe_false (p : SRAMParams) (s : SRAMState)
    (inp : BusInput) (h : portWe p inp = false) :
    (sramStep p s inp).mem = s.mem := by
  simp [sramStep, h]

/-- C4: for a writable bridge with `words_per_entry > 1`, the memory write
enable fires only when `sel`, `we`, and a final sub-word index all hold;
the word written then is `Cat(bus.dat_w, *reversed(wregs))` (incoming data
least significant, buffered holding registers in reversed order); and a
trace that never contains a selected write to the final sub-word index
leaves the memory contents unchanged. -/
theorem c4_write_gating :
    (∀ (p : SRAMParams) (inp : BusInput),
        p.readOnly = false → 0 < p.wordBits → portWe p inp = true →
        sramSel p inp.adr = true ∧ inp.we = true
          ∧ wordIndexIn p inp.adr = p.csrwPerMemw - 1)
    ∧ (∀ (p : SRAMParams) (s : SRAMState) (inp : BusInput),
        p.readOnly = false → 0 < p.wordBits → portWe p inp = true →
        (sramStep p s inp).mem (portAdr p s.page inp.adr)
          = catChunks p.dataWidth (inp.dat_w :: (wregList p s).reverse)
              % 2 ^ p.memWidth)
    ∧ (∀ (p : SRAMParams) (s : SRAMState) (inps : List BusInput),
        0 < p.wordBits →
        (∀ inp ∈ inps, sramSel p inp.adr = true → inp.we = true →
            wordIndexIn p inp.adr ≠ p.csrwPerMemw - 1) →
        (sramRun p s inps).mem = s.mem) := by
  refine ⟨?_, ?_, ?_⟩
  · intro p inp hro hwb h
    rw [portWe, if_neg (by simp [hro]), if_neg (show ¬p.wordBits = 0 by omega)] at h
    simpa [Bool.and_eq_true, decide_eq_true_eq, and_assoc] using h
  · intro p s inp hro hwb h
    simp [sramStep, h, portDatW, show ¬p.wordBits = 0 by omega]
  · intro p s inps hwb h
    induction inps generalizing s with
    | nil => rfl
    | cons inp rest ih =>
        have hw := portWe_false_of_not_final p inp hwb (h inp (List.mem_cons_self _ _))
        have hstep := sramStep_mem_of_portWe_false p s inp hw
        have hrun : sramRun p s (inp :: rest) = sramRun p (sramStep p s inp) rest := rfl
        rw [hrun, ih (sramStep p s inp) (fun i hi => h i (List.mem_cons_of_mem _ hi)),
          hstep]

/-- Witness for C4: a firing write satisfies the gating conjunction, and a
trace of two selected writes to non-final sub-word indices leaves memory
untouched. -/
theorem c4_write_gating_witness :
    (sramSel c4P 3 = true ∧ (⟨3, true, 9⟩ : BusInput).we = true
      ∧ wordIndexIn c4P 3 = c4P.csrwPerMemw - 1)
    ∧ (sramRun c4P c4S [⟨0, true, 9⟩, ⟨1, true, 5⟩]).mem = c4S.mem :=
  ⟨c4_write_gating.1 c4P ⟨3, true, 9⟩ rfl (by decide) (by decide),
   c4_write_gating.2.2 c4P c4S [⟨0, true, 9⟩, ⟨1, true, 5⟩] (by decide) (by decide)⟩

theorem sramStep_fix (p : SRAMParams) (s : SRAMState) (inp : BusInput)
    (hwe : inp.we = false) :
    sramStep p (sramStep p s inp) inp = sramStep p s inp := by
  have hw : portWe p inp = false := by simp [portWe, hwe]
  simp [sramStep, hw, hwe]

theorem sramRun_fixpoint (p : SRAMParams) (t : SRAMState) (inp : BusInput)
    (hfix : sramStep p t inp = t) :
    ∀ k, sramRun p t (List.replicate k inp) = t := by
  intro k
  induction k with
  | zero => rfl
  | succ k ih =>
      have hrep : sramRun p t (List.replicate (k + 1) inp)
          = sramRun p (sramStep p t inp) (List.replicate k inp) := rfl
      rw [hrep, hfix, ih]

/-- C5: with a fixed presented address whose select condition holds, the
bridge's `dat_r` equals the targeted memory sub-word (reverse-order slice
of the addressed word) exactly one cycle after the address is first
presented, and stays there while the inputs are held; for the bank, the
registered `dat_r` equals the selected register's externally held value one
cycle later (and, its next value being a function of the held inputs alone,
it is stable while they hold). -/
theorem c5_read_latency :
    (∀ (p : SRAMParams) (s : SRAMState) (inp : BusInput) (k : Nat),
        inp.we = false → sramSel p inp.adr = true → 1 ≤ k →
        sramDatR p (sramRun p s (List.replicate k inp))
          = sramReadTarget p s inp.adr)
    ∧ (∀ (p : BankParams) (w : List Nat) (adr : Nat),
        bankSel p adr = true → adr % 2 ^ p.decode_bits < p.simple_csrs.length →
        bankDatRNext p w adr = w.getD (adr % 2 ^ p.decode_bits) 0) := by
  constructor
  · intro p s inp k hwe hsel hk
    obtain ⟨k', rfl⟩ : ∃ k', k = k' + 1 := ⟨k - 1, by omega⟩
    have h0 : sramRun p s (List.replicate (k' + 1) inp)
        = sramRun p (sramStep p s inp) (List.replicate k' inp) := rfl
    rw [h0, sramRun_fixpoint p _ inp (sramStep_fix p s inp hwe)]
    have hw : portWe p inp = false := by simp [portWe, hwe]
    simp [sramDatR, sramStep, sramReadTarget, hsel, hw, wordIndexIn]
  · intro p w adr hsel hlt
    simp [bankDatRNext, hsel, hlt]

/-- Witness for C5: a held read of sub-word 1 of entry 3 returns the
addressed slice one cycle later and keeps it; a bank read returns the
selected register's value. -/
theorem c5_read_latency_witness :
    sramDatR c5P (sramRun c5P c5S (List.replicate 2 ⟨1037, false, 0⟩))
      = sramReadTarget c5P c5S 1037
    ∧ bankDatRNext c5B [3, 9] 1025 = 9 :=
  ⟨c5_read_latency.1 c5P c5S ⟨1037, false, 0⟩ 2 rfl (by decide) (by decide),
   c5_read_latency.2 c5B [3, 9] 1025 (by decide) (by decide)⟩

/-- C6: for a constructed bridge with `page_bits > 0`, `page_bits` is derived
from `ceil(depth * words_per_entry / 512)`, `get_csrs` returns the page
register (of width `page_bits`), the memory address presented to the
underlying memory is the concatenation of the page register value (most
significant) with `adr[word_bits : word_bits + flen(port.adr) - page_bits]`,
and two accesses with identical bus address bits but different page-register
contents resolve to different underlying memory addresses. -/
theorem c6_paging (D : Nat) (m : MemSpec) (a : Nat) (ro : Bool) (p : SRAMParams)
    (hp : mkSRAM D m a ro = some p) (hpb : 0 < p.pageBits) :
    p.pageBits = clog2 ((m.depth * ((m.width + D - 1) / D) + 511) / 512)
    ∧ sramGetCsrs p = [p.pageBits]
    ∧ (∀ pg adr, portAdr p pg adr
        = adr / 2 ^ p.wordBits % 2 ^ (p.portAdrWidth - p.pageBits)
          + pg % 2 ^ p.pageBits * 2 ^ (p.portAdrWidth - p.pageBits))
    ∧ (∀ pg1 pg2 adr, pg1 < 2 ^ p.pageBits → pg2 < 2 ^ p.pageBits → pg1 ≠ pg2 →
        portAdr p pg1 adr ≠ portAdr p pg2 adr) := by
  have hpb' : p.pageBits ≠ 0 := by omega
  refine ⟨?_, ?_, ?_, ?_⟩
  · simp only [mkSRAM, log2IntExact] at hp
    by_cases h : 2 ^ clog2 ((m.width + D - 1) / D) = (m.width + D - 1) / D
    · rw [if_pos h] at hp
      simp only [Option.some.injEq] at hp
      subst hp
      rfl
    · rw [if_neg h] at hp
      simp at hp
  · simp [sramGetCsrs, hpb']
  · intro pg adr
    simp [portAdr, hpb']
  · intro pg1 pg2 adr h1 h2 hne
    simp only [portAdr, if_neg hpb']
    intro heq
    have hc := Nat.add_left_cancel heq
    rw [Nat.mod_eq_of_lt h1, Nat.mod_eq_of_lt h2] at hc
    exact hne (Nat.eq_of_mul_eq_mul_right (Nat.two_pow_pos _) hc)

/-- Witness for C6: on the depth-1024 paged bridge, page values 0 and 1 with
the same bus address decode to different memory addresses. -/
theorem c6_paging_witness :
    portAdr c6P 0 5 ≠ portAdr c6P 1 5 :=
  (c6_paging 8 ⟨8, 1024, false⟩ 0 false c6P (by decide) (by decide)).2.2.2 0 1 5
    (by decide) (by decide) (by decide)

theorem scanMems_calls_spec {σ : Type}
    (am : σ → String → Option MemSpec → σ × Option Nat)
    (dataWidth : Nat) (name : String) :
    ∀ (mems : List MemSpec) (s : σ) (out : MemScan σ),
      scanMems am dataWidth name s mems = some out →
      out.srams = out.calls.filterMap (sramOfCall dataWidth)
      ∧ out.calls.filterMap bankAddrOfCall = [] := by
  intro mems
  induction mems with
  | nil =>
      intro s out h
      simp only [scanMems, Option.some.injEq] at h
      subst h
      simp
  | cons m rest ih =>
      intro s out h
      simp only [scanMems] at h
      split at h
      · rw [Option.map_eq_some'] at h
        obtain ⟨t, hrec, rfl⟩ := h
        obtain ⟨h1, h2⟩ := ih _ t hrec
        refine ⟨?_, ?_⟩
        · simpa [List.filterMap_cons, sramOfCall] using h1
        · simpa [List.filterMap_cons, bankAddrOfCall] using h2
      · split at h
        · exact absurd h (by simp)
        · next p hmk =>
            rw [Option.map_eq_some'] at h
            obtain ⟨t, hrec, rfl⟩ := h
            obtain ⟨h1, h2⟩ := ih _ t hrec
            refine ⟨?_, ?_⟩
            · simpa [List.filterMap_cons, sramOfCall, hmk] using h1
            · simpa [List.filterMap_cons, bankAddrOfCall] using h2

/-- C7: over one allocator scan, `self.srams` and `self.banks` are exactly
the per-call images of the `address_map` call sequence: a call answered
`skip` (`None`) contributes no bridge and no bank, and every produced entry
is determined by its own call's answer alone, so the results for the other
children depend only on the policy's call sequence. -/
theorem c7_skip_semantics {σ : Type}
    (am : σ → String → Option MemSpec → σ × Option Nat) (dataWidth : Nat)
    (objs : List ScanObj) (s : σ) (out : ScanOut σ)
    (h : scan am dataWidth s objs = some out) :
    out.srams = out.calls.filterMap (sramOfCall dataWidth)
    ∧ out.banks.map (fun b => (b.1, b.2.2)) = out.calls.filterMap bankAddrOfCall := by
  induction objs generalizing s out with
  | nil =>
      simp only [scan, Option.some.injEq] at h
      subst h
      simp
  | cons o rest ih =>
      simp only [scan] at h
      split at h
      · exact absurd h (by simp)
      · next ms hms =>
          obtain ⟨hm1, hm2⟩ := scanMems_calls_spec am dataWidth o.name o.mems s ms hms
          split at h
          · rw [Option.map_eq_some'] at h
            obtain ⟨t, hrec, rfl⟩ := h
            obtain ⟨h1, h2⟩ := ih _ _ hrec
            refine ⟨?_, ?_⟩
            · simp [List.filterMap_append, hm1, h1]
            · simp [List.filterMap_append, hm2, h2]
          · split at h
            · rw [Option.map_eq_some'] at h
              obtain ⟨t, hrec, rfl⟩ := h
              obtain ⟨h1, h2⟩ := ih _ _ hrec
              refine ⟨?_, ?_⟩
              · simp [List.filterMap_append, List.filterMap_cons, sramOfCall,
                  hm1, h1]
              · simp [List.filterMap_append, List.filterMap_cons, bankAddrOfCall,
                  hm2, h2]
            · rw [Option.map_eq_some'] at h
              obtain ⟨t, hrec, rfl⟩ := h
              obtain ⟨h1, h2⟩ := ih _ _ hrec
              refine ⟨?_, ?_⟩
              · simp [List.filterMap_append, List.filterMap_cons, sramOfCall,
                  hm1, h1]
              · simp [List.filterMap_append, List.filterMap_cons, bankAddrOfCall,
                  hm2, h2]

/-- Witness for C7: the skipped memory of `"x"` produces no bridge, no
address is consumed by it, and the produced entries are the per-call images
of the recorded call sequence. -/
theorem c7_skip_semantics_witness :
    c7Out.srams = c7Out.calls.filterMap (sramOfCall 8)
    ∧ c7Out.banks.map (fun b => (b.1, b.2.2)) = c7Out.calls.filterMap bankAddrOfCall :=
  c7_skip_semantics c7Am 8 c7Objs () c7Out (by decide)

theorem scanMems_state_pure {σ : Type}
    (am : σ → String → Option MemSpec → σ × Option Nat)
    (dataWidth : Nat) (name : String)
    (hpure : ∀ s n m, (am s n m).1 = s) :
    ∀ (mems : List MemSpec) (s : σ) (out : MemScan σ),
      scanMems am dataWidth name s mems = some out → out.state = s := by
  intro mems
  induction mems with
  | nil =>
      intro s out h
      simp only [scanMems, Option.some.injEq] at h
      subst h
      rfl
  | cons m rest ih =>
      intro s out h
      simp only [scanMems, hpure] at h
      split at h
      · rw [Option.map_eq_some'] at h
        obtain ⟨t, hrec, rfl⟩ := h
        exact ih _ t hrec
      · split at h
        · exact absurd h (by simp)
        · rw [Option.map_eq_some'] at h
          obtain ⟨t, hrec, rfl⟩ := h
          exact ih _ t hrec

theorem scan_state_pure {σ : Type}
    (am : σ → String → Option MemSpec → σ × Option Nat) (dataWidth : Nat)
    (hpure : ∀ s n m, (am s n m).1 = s) :
    ∀ (objs : List ScanObj) (s : σ) (out : ScanOut σ),
      scan am dataWidth s objs = some out → out.state = s := by
  intro objs
  induction objs with
  | nil =>
      intro s out h
      simp only [scan, Option.some.injEq] at h
      subst h
      rfl
  | cons o rest ih =>
      intro s out h
      simp only [scan, hpure] at h
      split at h
      · exact absurd h (by simp)
      · next ms hms =>
          have hmss := scanMems_state_pure am dataWidth o.name hpure o.mems s ms hms
          split at h
          · rw [Option.map_eq_some'] at h
            obtain ⟨t, hrec, rfl⟩ := h
            exact (ih _ t hrec).trans hmss
          · split at h
            · rw [Option.map_eq_some'] at h
              obtain ⟨t, hrec, rfl⟩ := h
              exact (ih _ t hrec).trans hmss
            · rw [Option.map_eq_some'] at h
              obtain ⟨t, hrec, rfl⟩ := h
              exact (ih _ t hrec).trans hmss

/-- C9: with a pure (stateless) policy, re-running the allocator scan
discards the previously produced banks/bridges (the held `BankArrays` is
ignored and rebuilt from scratch) and reproduces the identical set of
(name, address) products. -/
theorem c9_scan_idempotent {σ : Type}
    (am : σ → String → Option MemSpec → σ × Option Nat) (dataWidth : Nat)
    (objs : List ScanObj) (s0 s1 : σ) (arr0 arr1 : BankArrays)
    (hpure : ∀ s n m, (am s n m).1 = s)
    (h : scanUpdate am dataWidth objs s0 arr0 = some (s1, arr1)) :
    scanUpdate am dataWidth objs s1 arr1 = some (s1, arr1) := by
  simp only [scanUpdate, Option.map_eq_some'] at h
  obtain ⟨out, hout, heq⟩ := h
  have hst : out.state = s0 := scan_state_pure am dataWidth hpure objs s0 out hout
  have h1 : out.state = s1 := congrArg Prod.fst heq
  rw [← heq, h1.symm.trans hst]
  simp only [scanUpdate]
  rw [hout, Option.map_some']

/-- Witness for C9: scanning `c9Objs` with the pure policy `c9Am` a second
time reproduces exactly the products of the first scan. -/
theorem c9_scan_idempotent_witness :
    scanUpdate c9Am 8 c9Objs () c9Arr = some ((), c9Arr) :=
  c9_scan_idempotent c9Am 8 c9Objs () () ⟨[], []⟩ c9Arr (fun _ _ _ => rfl)
    (by decide)

theorem mkSRAM_w32 (d A : Nat) :
    mkSRAM 8 ⟨32, d, false⟩ A false = some (sram32 d A) := by
  unfold mkSRAM sram32 log2IntExact
  norm_num [show clog2 4 = 2 from by decide]

@[simp] theorem sram32_dataWidth (d A : Nat) : (sram32 d A).dataWidth = 8 := rfl

@[simp] theorem sram32_address (d A : Nat) : (sram32 d A).address = A := rfl

@[simp] theorem sram32_readOnly (d A : Nat) : (sram32 d A).readOnly = false := rfl

@[simp] theorem sram32_memWidth (d A : Nat) : (sram32 d A).memWidth = 32 := rfl

@[simp] theorem sram32_csrw (d A : Nat) : (sram32 d A).csrwPerMemw = 4 := rfl

@[simp] theorem sram32_wordBits (d A : Nat) : (sram32 d A).wordBits = 2 := rfl

theorem mod128_eq (A e k : Nat) (hk : k ≤ 7) (he : e < 2 ^ k) :
    (A * 128 + e) % 2 ^ k = e := by
  have h128 : (128 : Nat) = 2 ^ (7 - k) * 2 ^ k := by
    rw [← pow_add, Nat.sub_add_cancel hk]
    norm_num
  rw [h128, ← Nat.mul_assoc, Nat.add_comm, Nat.add_mul_mod_self_right]
  exact Nat.mod_eq_of_lt he

theorem sram32_sel (d A e i : Nat) (hlt : 4 * e + i < 512) :
    sramSel (sram32 d A) (A * 512 + (4 * e + i)) = true := by
  have h : (A * 512 + (4 * e + i)) / 512 = A := by omega
  simp [sramSel, h]

theorem sram32_widx (d A e i : Nat) (hi : i < 4) :
    wordIndexIn (sram32 d A) (A * 512 + (4 * e + i)) = i := by
  show (A * 512 + (4 * e + i)) % 2 ^ 2 = i
  have h4 : (2 : Nat) ^ 2 = 4 := by norm_num
  rw [h4]
  omega

theorem sram32_portAdr (d A e i : Nat) (he : e < d) (hi : i < 4)
    (hlt : 4 * e + i < 512) :
    portAdr (sram32 d A) 0 (A * 512 + (4 * e + i)) = e := by
  have he128 : e < 128 := by omega
  have hdiv : (A * 512 + (4 * e + i)) / 2 ^ 2 = A * 128 + e := by
    have h4 : (2 : Nat) ^ 2 = 4 := by norm_num
    rw [h4]
    omega
  simp only [portAdr, sram32]
  by_cases hpb : clog2 ((d * 4 + 511) / 512) = 0
  · rw [if_pos hpb, hdiv]
    have hx : (d * 4 + 511) / 512 ≤ 1 := by
      have := (clog2_le_iff ((d * 4 + 511) / 512) 0).mp (le_of_eq hpb)
      simpa using this
    have hd128 : d ≤ 128 := by omega
    have hcl : clog2 d ≤ 7 := (clog2_le_iff d 7).mpr (by simpa using hd128)
    have hmax : max 1 (clog2 d) ≤ 7 := by omega
    have hdle : d ≤ 2 ^ clog2 d := le_two_pow_clog2 d
    have hmono : (2 : Nat) ^ clog2 d ≤ 2 ^ max 1 (clog2 d) :=
      Nat.pow_le_pow_right (by norm_num) (le_max_right _ _)
    exact mod128_eq A e _ hmax (by omega)
  · rw [if_neg hpb, hdiv]
    have hd129 : 129 ≤ d := by
      by_contra hcon
      apply hpb
      have hx1 : (d * 4 + 511) / 512 ≤ 2 ^ 0 := by
        simp only [Nat.pow_zero]
        omega
      have := (clog2_le_iff ((d * 4 + 511) / 512) 0).mpr hx1
      omega
    have hc8 : 8 ≤ clog2 d := by
      by_contra hcon
      have hx2 : d ≤ 2 ^ 7 := (clog2_le_iff d 7).mp (by omega)
      simp only [show (2 : Nat) ^ 7 = 128 by norm_num] at hx2
      omega
    have hup : (d * 4 + 511) / 512 ≤ 2 ^ (clog2 d - 7) := by
      have hdle : d ≤ 2 ^ clog2 d := le_two_pow_clog2 d
      have hsplit : (2 : Nat) ^ clog2 d = 128 * 2 ^ (clog2 d - 7) := by
        rw [show (128 : Nat) = 2 ^ 7 by norm_num, ← pow_add]
        congr 1
        omega
      rw [hsplit] at hdle
      omega
    have hble : clog2 ((d * 4 + 511) / 512) ≤ clog2 d - 7 :=
      (clog2_le_iff _ _).mpr hup
    have hge : clog2 d ≤ clog2 ((d * 4 + 511) / 512) + 7 := by
      apply (clog2_le_iff _ _).mpr
      have h2 : (d * 4 + 511) / 512 ≤ 2 ^ clog2 ((d * 4 + 511) / 512) :=
        le_two_pow_clog2 _
      rw [pow_add, show (2 : Nat) ^ 7 = 128 by norm_num]
      omega
    have h7 : max 1 (clog2 d) - clog2 ((d * 4 + 511) / 512) = 7 := by omega
    rw [h7]
    simp only [Nat.zero_mod, Nat.zero_mul, Nat.add_zero]
    exact mod128_eq A e 7 le_rfl (by simpa using he128)

theorem sram32_write_nonfinal (d A e i b : Nat) (s : SRAMState)
    (hpage : s.page = 0) (he : e < d) (hi : i < 3) (hlt : 4 * e + i < 512) :
    sramStep (sram32 d A) s ⟨A * 512 + (4 * e + i), true, b⟩
      = { mem := s.mem,
          wregs := fun j => if i = j then b % 2 ^ 8 else s.wregs j,
          sel_r := true, word_index := i,
          port_dat_r := s.mem e % 2 ^ 32, page := 0 } := by
  have hs := sram32_sel d A e i hlt
  have hw := sram32_widx d A e i (by omega)
  have hpa : portAdr (sram32 d A) s.page (A * 512 + (4 * e + i)) = e := by
    rw [hpage]
    exact sram32_portAdr d A e i he (by omega) hlt
  have hi3 : i ≠ 3 := by omega
  have hwe : portWe (sram32 d A) ⟨A * 512 + (4 * e + i), true, b⟩ = false := by
    simp [portWe, hw, hi3]
  have hcond : (portWe (sram32 d A) ⟨A * 512 + (4 * e + i), true, b⟩ = true) = False := by
    simp [hwe]
  simp only [sramStep, hcond, if_false]
  rw [SRAMState.mk.injEq]
  refine ⟨rfl, ?_, hs, hw, ?_, hpage⟩
  · funext j
    by_cases hij : i = j
    · subst hij
      simp [hs, hw, hi]
    · simp [hw, hij]
  · rw [hpa]
    simp

theorem sram32_write_final (d A e b : Nat) (s : SRAMState)
    (hpage : s.page = 0) (he : e < d) (hlt : 4 * e + 3 < 512) :
    sramStep (sram32 d A) s ⟨A * 512 + (4 * e + 3), true, b⟩
      = { mem := Function.update s.mem e
            (catChunks 8 [b, s.wregs 2, s.wregs 1, s.wregs 0] % 2 ^ 32),
          wregs := s.wregs,
          sel_r := true, word_index := 3,
          port_dat_r := catChunks 8 [b, s.wregs 2, s.wregs 1, s.wregs 0] % 2 ^ 32,
          page := 0 } := by
  have hs := sram32_sel d A e 3 hlt
  have hw := sram32_widx d A e 3 (by omega)
  have hpa : portAdr (sram32 d A) s.page (A * 512 + (4 * e + 3)) = e := by
    rw [hpage]
    exact sram32_portAdr d A e 3 he (by omega) hlt
  have hwe : portWe (sram32 d A) ⟨A * 512 + (4 * e + 3), true, b⟩ = true := by
    simp [portWe, hs, hw]
  have hdw : portDatW (sram32 d A) s ⟨A * 512 + (4 * e + 3), true, b⟩
      = catChunks 8 [b, s.wregs 2, s.wregs 1, s.wregs 0] % 2 ^ 32 := rfl
  have hcond : (portWe (sram32 d A) ⟨A * 512 + (4 * e + 3), true, b⟩ = true) = True := by
    simp [hwe]
  simp only [sramStep, hcond, if_true, hdw, hpa]
  rw [SRAMState.mk.injEq]
  refine ⟨rfl, ?_, hs, hw, ?_, hpage⟩
  · funext j
    by_cases h3 : (3 : Nat) = j
    · subst h3
      simp [hw]
    · simp [hw, h3]
  · rw [Function.update_same]
    simp

theorem sram32_read (d A e i : Nat) (s : SRAMState)
    (hpage : s.page = 0) (he : e < d) (hi : i < 4) (hlt : 4 * e + i < 512) :
    sramStep (sram32 d A) s ⟨A * 512 + (4 * e + i), false, 0⟩
      = { mem := s.mem, wregs := s.wregs, sel_r := true, word_index := i,
          port_dat_r := s.mem e % 2 ^ 32, page := 0 } := by
  have hs := sram32_sel d A e i hlt
  have hw := sram32_widx d A e i hi
  have hpa : portAdr (sram32 d A) s.page (A * 512 + (4 * e + i)) = e := by
    rw [hpage]
    exact sram32_portAdr d A e i he hi hlt
  have hwe : portWe (sram32 d A) ⟨A * 512 + (4 * e + i), false, 0⟩ = false := by
    simp [portWe]
  have hcond : (portWe (sram32 d A) ⟨A * 512 + (4 * e + i), false, 0⟩ = true) = False := by
    simp [hwe]
  simp only [sramStep, hcond, if_false]
  rw [SRAMState.mk.injEq]
  refine ⟨rfl, ?_, hs, hw, ?_, hpage⟩
  · funext j
    simp
  · rw [hpa]
    simp

theorem sram32_datR (d A : Nat) (s : SRAMState) (hsel : s.sel_r = true) :
    sramDatR (sram32 d A) s
      = s.port_dat_r / 2 ^ ((3 - s.word_index) * 8) % 2 ^ 8 := by
  simp [sramDatR, hsel]

/-- C1: on an 8-bit bus over a 32-bit-wide memory (`words_per_entry = 4`,
`word_index_bits = 2`), with the page register at its power-on zero, issuing
selected writes of bytes 0x11, 0x22, 0x33, 0x44 to sub-word indices 0..3 of
entry `e` leaves the memory word at index `e` equal to 0x11223344 (sub-word
index 0 occupying the most significant 8-bit slice), and subsequently
reading sub-word indices 0..3 of entry `e` returns 0x11, 0x22, 0x33, 0x44 in
that order, each value valid one cycle after its address is presented. -/
theorem c1_pack_roundtrip (d A e : Nat) (p : SRAMParams)
    (hp : mkSRAM 8 ⟨32, d, false⟩ A false = some p)
    (he : e < d) (hein : 4 * e + 3 < 512)
    (s0 : SRAMState) (hpage : s0.page = 0) :
    (sramRun p s0
        [⟨A * 512 + (4 * e + 0), true, 0x11⟩, ⟨A * 512 + (4 * e + 1), true, 0x22⟩,
         ⟨A * 512 + (4 * e + 2), true, 0x33⟩, ⟨A * 512 + (4 * e + 3), true, 0x44⟩]).mem e
      = 0x11223344
    ∧ sramDatR p (sramRun p s0
        [⟨A * 512 + (4 * e + 0), true, 0x11⟩, ⟨A * 512 + (4 * e + 1), true, 0x22⟩,
         ⟨A * 512 + (4 * e + 2), true, 0x33⟩, ⟨A * 512 + (4 * e + 3), true, 0x44⟩,
         ⟨A * 512 + (4 * e + 0), false, 0⟩]) = 0x11
    ∧ sramDatR p (sramRun p s0
        [⟨A * 512 + (4 * e + 0), true, 0x11⟩, ⟨A * 512 + (4 * e + 1), true, 0x22⟩,
         ⟨A * 512 + (4 * e + 2), true, 0x33⟩, ⟨A * 512 + (4 * e + 3), true, 0x44⟩,
         ⟨A * 512 + (4 * e + 0), false, 0⟩, ⟨A * 512 + (4 * e + 1), false, 0⟩]) = 0x22
    ∧ sramDatR p (sramRun p s0
        [⟨A * 512 + (4 * e + 0), true, 0x11⟩, ⟨A * 512 + (4 * e + 1), true, 0x22⟩,
         ⟨A * 512 + (4 * e + 2), true, 0x33⟩, ⟨A * 512 + (4 * e + 3), true, 0x44⟩,
         ⟨A * 512 + (4 * e + 0), false, 0⟩, ⟨A * 512 + (4 * e + 1), false, 0⟩,
         ⟨A * 512 + (4 * e + 2), false, 0⟩]) = 0x33
    ∧ sramDatR p (sramRun p s0
        [⟨A * 512 + (4 * e + 0), true, 0x11⟩, ⟨A * 512 + (4 * e + 1), true, 0x22⟩,
         ⟨A * 512 + (4 * e + 2), true, 0x33⟩, ⟨A * 512 + (4 * e + 3), true, 0x44⟩,
         ⟨A * 512 + (4 * e + 0), false, 0⟩, ⟨A * 512 + (4 * e + 1), false, 0⟩,
         ⟨A * 512 + (4 * e + 2), false, 0⟩, ⟨A * 512 + (4 * e + 3), false, 0⟩]) = 0x44 := by
  rw [mkSRAM_w32] at hp
  injection hp with hp
  subst hp
  obtain ⟨S1, e1, m1, w1a, pg1⟩ :
      ∃ S1, sramStep (sram32 d A) s0 ⟨A * 512 + (4 * e + 0), true, 0x11⟩ = S1
        ∧ S1.mem = s0.mem ∧ S1.wregs 0 = 0x11 ∧ S1.page = 0 := by
    rw [sram32_write_nonfinal d A e 0 0x11 s0 hpage he (by omega) (by omega)]
    exact ⟨_, rfl, rfl, by norm_num, rfl⟩
  obtain ⟨S2, e2, m2, w2a, w2b, pg2⟩ :
      ∃ S2, sramStep (sram32 d A) S1 ⟨A * 512 + (4 * e + 1), true, 0x22⟩ = S2
        ∧ S2.mem = s0.mem ∧ S2.wregs 0 = 0x11 ∧ S2.wregs 1 = 0x22
        ∧ S2.page = 0 := by
    rw [sram32_write_nonfinal d A e 1 0x22 S1 pg1 he (by omega) (by omega)]
    refine ⟨_, rfl, m1, ?_, by norm_num, rfl⟩
    simpa using w1a
  obtain ⟨S3, e3, m3, w3a, w3b, w3c, pg3⟩ :
      ∃ S3, sramStep (sram32 d A) S2 ⟨A * 512 + (4 * e + 2), true, 0x33⟩ = S3
        ∧ S3.mem = s0.mem ∧ S3.wregs 0 = 0x11 ∧ S3.wregs 1 = 0x22
        ∧ S3.wregs 2 = 0x33 ∧ S3.page = 0 := by
    rw [sram32_write_nonfinal d A e 2 0x33 S2 pg2 he (by omega) (by omega)]
    refine ⟨_, rfl, m2, ?_, ?_, by norm_num, rfl⟩
    · simpa using w2a
    · simpa using w2b
  obtain ⟨S4, e4, m4, pg4⟩ :
      ∃ S4, sramStep (sram32 d A) S3 ⟨A * 512 + (4 * e + 3), true, 0x44⟩ = S4
        ∧ S4.mem e = 0x11223344 ∧ S4.page = 0 := by
    rw [sram32_write_final d A e 0x44 S3 pg3 he (by omega)]
    refine ⟨_, rfl, ?_, rfl⟩
    show Function.update S3.mem e
        (catChunks 8 [0x44, S3.wregs 2, S3.wregs 1, S3.wregs 0] % 2 ^ 32) e
      = 0x11223344
    rw [Function.update_same, w3a, w3b, w3c]
    norm_num [catChunks]
  obtain ⟨S5, e5, m5, pg5, d5⟩ :
      ∃ S5, sramStep (sram32 d A) S4 ⟨A * 512 + (4 * e + 0), false, 0⟩ = S5
        ∧ S5.mem e = 0x11223344 ∧ S5.page = 0
        ∧ sramDatR (sram32 d A) S5 = 0x11 := by
    rw [sram32_read d A e 0 S4 pg4 he (by omega) (by omega)]
    refine ⟨_, rfl, m4, rfl, ?_⟩
    simp only [sramDatR, sram32_wordBits, sram32_csrw, sram32_dataWidth]
    rw [m4]
    norm_num
  obtain ⟨S6, e6, m6, pg6, d6⟩ :
      ∃ S6, sramStep (sram32 d A) S5 ⟨A * 512 + (4 * e + 1), false, 0⟩ = S6
        ∧ S6.mem e = 0x11223344 ∧ S6.page = 0
        ∧ sramDatR (sram32 d A) S6 = 0x22 := by
    rw [sram32_read d A e 1 S5 pg5 he (by omega) (by omega)]
    refine ⟨_, rfl, m5, rfl, ?_⟩
    simp only [sramDatR, sram32_wordBits, sram32_csrw, sram32_dataWidth]
    rw [m5]
    norm_num
  obtain ⟨S7, e7, m7, pg7, d7⟩ :
      ∃ S7, sramStep (sram32 d A) S6 ⟨A * 512 + (4 * e + 2), false, 0⟩ = S7
        ∧ S7.mem e = 0x11223344 ∧ S7.page = 0
        ∧ sramDatR (sram32 d A) S7 = 0x33 := by
    rw [sram32_read d A e 2 S6 pg6 he (by omega) (by omega)]
    refine ⟨_, rfl, m6, rfl, ?_⟩
    simp only [sramDatR, sram32_wordBits, sram32_csrw, sram32_dataWidth]
    rw [m6]
    norm_num
  obtain ⟨S8, e8, d8⟩ :
      ∃ S8, sramStep (sram32 d A) S7 ⟨A * 512 + (4 * e + 3), false, 0⟩ = S8
        ∧ sramDatR (sram32 d A) S8 = 0x44 := by
    rw [sram32_read d A e 3 S7 pg7 he (by omega) (by omega)]
    refine ⟨_, rfl, ?_⟩
    simp only [sramDatR, sram32_wordBits, sram32_csrw, sram32_dataWidth]
    rw [m7]
    norm_num
  have hrun4 : sramRun (sram32 d A) s0
      [⟨A * 512 + (4 * e + 0), true, 0x11⟩, ⟨A * 512 + (4 * e + 1), true, 0x22⟩,
       ⟨A * 512 + (4 * e + 2), true, 0x33⟩, ⟨A * 512 + (4 * e + 3), true, 0x44⟩]
      = S4 := by
    show sramStep (sram32 d A) (sramStep (sram32 d A) (sramStep (sram32 d A)
        (sramStep (sram32 d A) s0 ⟨A * 512 + (4 * e + 0), true, 0x11⟩)
        ⟨A * 512 + (4 * e + 1), true, 0x22⟩)
        ⟨A * 512 + (4 * e + 2), true, 0x33⟩)
        ⟨A * 512 + (4 * e + 3), true, 0x44⟩ = S4
    rw [e1, e2, e3, e4]
  have hrun5 : sramRun (sram32 d A) s0
      [⟨A * 512 + (4 * e + 0), true, 0x11⟩, ⟨A * 512 + (4 * e + 1), true, 0x22⟩,
       ⟨A * 512 + (4 * e + 2), true, 0x33⟩, ⟨A * 512 + (4 * e + 3), true, 0x44⟩,
       ⟨A * 512 + (4 * e + 0), false, 0⟩] = S5 := by
    show sramStep (sram32 d A) (sramRun (sram32 d A) s0
        [⟨A * 512 + (4 * e + 0), true, 0x11⟩, ⟨A * 512 + (4 * e + 1), true, 0x22⟩,
         ⟨A * 512 + (4 * e + 2), true, 0x33⟩, ⟨A * 512 + (4 * e + 3), true, 0x44⟩])
        ⟨A * 512 + (4 * e + 0), false, 0⟩ = S5
    rw [hrun4, e5]
  have hrun6 : sramRun (sram32 d A) s0
      [⟨A * 512 + (4 * e + 0), true, 0x11⟩, ⟨A * 512 + (4 * e + 1), true, 0x22⟩,
       ⟨A * 512 + (4 * e + 2), true, 0x33⟩, ⟨A * 512 + (4 * e + 3), true, 0x44⟩,
       ⟨A * 512 + (4 * e + 0), false, 0⟩, ⟨A * 512 + (4 * e + 1), false, 0⟩] = S6 := by
    show sramStep (sram32 d A) (sramRun (sram32 d A) s0
        [⟨A * 512 + (4 * e + 0), true, 0x11⟩, ⟨A * 512 + (4 * e + 1), true, 0x22⟩,
         ⟨A * 512 + (4 * e + 2), true, 0x33⟩, ⟨A * 512 + (4 * e + 3), true, 0x44⟩,
         ⟨A * 512 + (4 * e + 0), false, 0⟩])
        ⟨A * 512 + (4 * e + 1), false, 0⟩ = S6
    rw [hrun5, e6]
  have hrun7 : sramRun (sram32 d A) s0
      [⟨A * 512 + (4 * e + 0), true, 0x11⟩, ⟨A * 512 + (4 * e + 1), true, 0x22⟩,
       ⟨A * 512 + (4 * e + 2), true, 0x33⟩, ⟨A * 512 + (4 * e + 3), true, 0x44⟩,
       ⟨A * 512 + (4 * e + 0), false, 0⟩, ⟨A * 512 + (4 * e + 1), false, 0⟩,
       ⟨A * 512 + (4 * e + 2), false, 0⟩] = S7 := by
    show sramStep (sram32 d A) (sramRun (sram32 d A) s0
        [⟨A * 512 + (4 * e + 0), true, 0x11⟩, ⟨A * 512 + (4 * e + 1), true, 0x22⟩,
         ⟨A * 512 + (4 * e + 2), true, 0x33⟩, ⟨A * 512 + (4 * e + 3), true, 0x44⟩,
         ⟨A * 512 + (4 * e + 0), false, 0⟩, ⟨A * 512 + (4 * e + 1), false, 0⟩])
        ⟨A * 512 + (4 * e + 2), false, 0⟩ = S7
    rw [hrun6, e7]
  have hrun8 : sramRun (sram32 d A) s0
      [⟨A * 512 + (4 * e + 0), true, 0x11⟩, ⟨A * 512 + (4 * e + 1), true, 0x22⟩,
       ⟨A * 512 + (4 * e + 2), true, 0x33⟩, ⟨A * 512 + (4 * e + 3), true, 0x44⟩,
       ⟨A * 512 + (4 * e + 0), false, 0⟩, ⟨A * 512 + (4 * e + 1), false, 0⟩,
       ⟨A * 512 + (4 * e + 2), false, 0⟩, ⟨A * 512 + (4 * e + 3), false, 0⟩] = S8 := by
    show sramStep (sram32 d A) (sramRun (sram32 d A) s0
        [⟨A * 512 + (4 * e + 0), true, 0x11⟩, ⟨A * 512 + (4 * e + 1), true, 0x22⟩,
         ⟨A * 512 + (4 * e + 2), true, 0x33⟩, ⟨A * 512 + (4 * e + 3), true, 0x44⟩,
         ⟨A * 512 + (4 * e + 0), false, 0⟩, ⟨A * 512 + (4 * e + 1), false, 0⟩,
         ⟨A * 512 + (4 * e + 2), false, 0⟩])
        ⟨A * 512 + (4 * e + 3), false, 0⟩ = S8
    rw [hrun7, e8]
  exact ⟨by rw [hrun4]; exact m4, by rw [hrun5]; exact d5, by rw [hrun6]; exact d6,
    by rw [hrun7]; exact d7, by rw [hrun8]; exact d8⟩

/-- Witness for C1: the concrete scenario on a depth-16 memory at assigned
address 1 and entry 5, starting from the zeroed power-on state. -/
theorem c1_pack_roundtrip_witness :
    (sramRun c1P c1S0
        [⟨1 * 512 + (4 * 5 + 0), true, 0x11⟩, ⟨1 * 512 + (4 * 5 + 1), true, 0x22⟩,
         ⟨1 * 512 + (4 * 5 + 2), true, 0x33⟩, ⟨1 * 512 + (4 * 5 + 3), true, 0x44⟩]).mem 5
      = 0x11223344
    ∧ sramDatR c1P (sramRun c1P c1S0
        [⟨1 * 512 + (4 * 5 + 0), true, 0x11⟩, ⟨1 * 512 + (4 * 5 + 1), true, 0x22⟩,
         ⟨1 * 512 + (4 * 5 + 2), true, 0x33⟩, ⟨1 * 512 + (4 * 5 + 3), true, 0x44⟩,
         ⟨1 * 512 + (4 * 5 + 0), false, 0⟩]) = 0x11
    ∧ sramDatR c1P (sramRun c1P c1S0
        [⟨1 * 512 + (4 * 5 + 0), true, 0x11⟩, ⟨1 * 512 + (4 * 5 + 1), true, 0x22⟩,
         ⟨1 * 512 + (4 * 5 + 2), true, 0x33⟩, ⟨1 * 512 + (4 * 5 + 3), true, 0x44⟩,
         ⟨1 * 512 + (4 * 5 + 0), false, 0⟩, ⟨1 * 512 + (4 * 5 + 1), false, 0⟩]) = 0x22
    ∧ sramDatR c1P (sramRun c1P c1S0
        [⟨1 * 512 + (4 * 5 + 0), true, 0x11⟩, ⟨1 * 512 + (4 * 5 + 1), true, 0x22⟩,
         ⟨1 * 512 + (4 * 5 + 2), true, 0x33⟩, ⟨1 * 512 + (4 * 5 + 3), true, 0x44⟩,
         ⟨1 * 512 + (4 * 5 + 0), false, 0⟩, ⟨1 * 512 + (4 * 5 + 1), false, 0⟩,
         ⟨1 * 512 + (4 * 5 + 2), false, 0⟩]) = 0x33
    ∧ sramDatR c1P (sramRun c1P c1S0
        [⟨1 * 512 + (4 * 5 + 0), true, 0x11⟩, ⟨1 * 512 + (4 * 5 + 1), true, 0x22⟩,
         ⟨1 * 512 + (4 * 5 + 2), true, 0x33⟩, ⟨1 * 512 + (4 * 5 + 3), true, 0x44⟩,
         ⟨1 * 512 + (4 * 5 + 0), false, 0⟩, ⟨1 * 512 + (4 * 5 + 1), false, 0⟩,
         ⟨1 * 512 + (4 * 5 + 2), false, 0⟩, ⟨1 * 512 + (4 * 5 + 3), false, 0⟩]) = 0x44 :=
  c1_pack_roundtrip 16 1 5 c1P (by decide) (by decide) (by decide) c1S0 rfl

end CsrBus
